import Mathlib

/-!
Verification development for the transcription-to-formatted-transcript
pipeline of the dora2 repository.

The modelled code:
* `parseLLMResponse`, the batch-correction LLM response parser
  (src/app/api/format/route.ts), together with a shallow embedding of
  the JavaScript `JSON.parse` it relies on and of the two regular
  expressions it uses as fallback extraction strategies;
* the batch-correction loop of `POST /api/format` (batching of the
  job's utterances into blocks of 40, per-batch LLM outcome handling,
  collection and application of updates, progress writes);
* `runWhisperTranscription` (download / conversion decision / chunk
  splitting with ffprobe duration / per-chunk transcription with
  timestamp offsets / utterance persistence / progress writes);
* the utterance-persistence mapping of `POST /api/transcribe-deepgram`.

Machine numbers that the code manipulates (timestamps, durations) are
modelled as rationals; JavaScript `Math.round`/`Math.ceil` on the small
quantities involved agree with their exact rational counterparts.
-/

/-- JSON values as produced by JavaScript `JSON.parse`.  Object fields are
kept in textual order; duplicate keys are resolved by `Json.getField`
taking the last binding, as JavaScript object literals do. -/
inductive Json where
  | null : Json
  | bool (b : Bool) : Json
  | num (q : ℚ) : Json
  | str (s : String) : Json
  | arr (elems : List Json) : Json
  | obj (fields : List (String × Json)) : Json

/-- Property access `value.key` on a parsed JSON value: `none` models the
JavaScript `undefined` (missing property, or access on a non-object). -/
def Json.getField (j : Json) (k : String) : Option Json :=
  match j with
  | .obj fields => (fields.reverse.lookup k)
  | _ => none

/-- The whitespace characters JSON allows between tokens. -/
def isJsonWs (c : Char) : Bool :=
  c == ' ' || c == '\t' || c == '\n' || c == '\r'

/-- Drop leading JSON whitespace. -/
def skipWs : List Char → List Char
  | [] => []
  | c :: cs => if isJsonWs c then skipWs cs else c :: cs

/-- JavaScript `String.prototype.trim`: strip whitespace from both ends
(the whitespace characters relevant to the modelled strings are the four
of `isJsonWs`). -/
def jsTrim (s : String) : String :=
  String.mk ((skipWs ((skipWs s.data).reverse)).reverse)

/-- Numeric value of a hexadecimal digit. -/
def hexVal (c : Char) : Option Nat :=
  if '0' ≤ c ∧ c ≤ '9' then some (c.toNat - 48)
  else if 'a' ≤ c ∧ c ≤ 'f' then some (c.toNat - 87)
  else if 'A' ≤ c ∧ c ≤ 'F' then some (c.toNat - 55)
  else none

/-- Body of a JSON string literal, after the opening quote: returns the
decoded characters and the input after the closing quote.  Escapes and the
rejection of raw control characters follow the JSON grammar. -/
def parseStringChars : Nat → List Char → Option (List Char × List Char)
  | 0, _ => none
  | _ + 1, [] => none
  | fuel + 1, c :: cs =>
    if c = '"' then some ([], cs)
    else if c = '\\' then
      match cs with
      | [] => none
      | e :: cs2 =>
        let esc : Option (Char × List Char) :=
          if e = '"' then some ('"', cs2)
          else if e = '\\' then some ('\\', cs2)
          else if e = '/' then some ('/', cs2)
          else if e = 'b' then some (Char.ofNat 8, cs2)
          else if e = 'f' then some (Char.ofNat 12, cs2)
          else if e = 'n' then some ('\n', cs2)
          else if e = 'r' then some ('\r', cs2)
          else if e = 't' then some ('\t', cs2)
          else if e = 'u' then
            match cs2 with
            | h1 :: h2 :: h3 :: h4 :: cs3 =>
              match hexVal h1, hexVal h2, hexVal h3, hexVal h4 with
              | some a, some b, some c2, some d =>
                some (Char.ofNat (((a * 16 + b) * 16 + c2) * 16 + d), cs3)
              | _, _, _, _ => none
            | _ => none
          else none
        match esc with
        | none => none
        | some (ch, rest) =>
          match parseStringChars fuel rest with
          | some (tail, rem) => some (ch :: tail, rem)
          | none => none
    else if c.toNat < 32 then none
    else
      match parseStringChars fuel cs with
      | some (tail, rem) => some (c :: tail, rem)
      | none => none

/-- Consume a maximal run of decimal digits, returning their values. -/
def takeDigits : List Char → List Nat × List Char
  | [] => ([], [])
  | c :: cs =>
    if c.isDigit then
      let (ds, r) := takeDigits cs
      ((c.toNat - 48) :: ds, r)
    else ([], c :: cs)

/-- Decimal value of a digit list. -/
def digitsToNat (ds : List Nat) : Nat :=
  ds.foldl (fun a d => a * 10 + d) 0

/-- A JSON number: optional minus, integer part, optional fraction,
optional exponent.  The exact rational value is kept. -/
def parseNumber (cs : List Char) : Option (ℚ × List Char) :=
  let (neg, cs1) :=
    match cs with
    | '-' :: t => (true, t)
    | _ => (false, cs)
  match cs1 with
  | [] => none
  | c :: t =>
    let intRes : Option (Nat × List Char) :=
      if c = '0' then some (0, t)
      else if c.isDigit then
        let (ds, r) := takeDigits (c :: t)
        some (digitsToNat ds, r)
      else none
    match intRes with
    | none => none
    | some (intVal, rest1) =>
      let fracRes : Option (ℚ × List Char) :=
        match rest1 with
        | '.' :: t2 =>
          let (fds, r2) := takeDigits t2
          if fds = [] then none
          else some ((digitsToNat fds : ℚ) / (10 : ℚ) ^ fds.length, r2)
        | _ => some (0, rest1)
      match fracRes with
      | none => none
      | some (fracVal, rest2) =>
        let expRes : Option (Int × List Char) :=
          match rest2 with
          | 'e' :: t3 =>
            match t3 with
            | '+' :: t4 =>
              let (eds, r4) := takeDigits t4
              if eds = [] then none else some ((digitsToNat eds : Int), r4)
            | '-' :: t4 =>
              let (eds, r4) := takeDigits t4
              if eds = [] then none else some (-(digitsToNat eds : Int), r4)
            | _ =>
              let (eds, r4) := takeDigits t3
              if eds = [] then none else some ((digitsToNat eds : Int), r4)
          | 'E' :: t3 =>
            match t3 with
            | '+' :: t4 =>
              let (eds, r4) := takeDigits t4
              if eds = [] then none else some ((digitsToNat eds : Int), r4)
            | '-' :: t4 =>
              let (eds, r4) := takeDigits t4
              if eds = [] then none else some (-(digitsToNat eds : Int), r4)
            | _ =>
              let (eds, r4) := takeDigits t3
              if eds = [] then none else some ((digitsToNat eds : Int), r4)
          | _ => some (0, rest2)
        match expRes with
        | none => none
        | some (expVal, rest3) =>
          let mag : ℚ := ((intVal : ℚ) + fracVal) * (10 : ℚ) ^ expVal
          some (if neg then -mag else mag, rest3)

mutual

/-- The JSON value grammar, by recursive descent with fuel.  Mirrors what
JavaScript `JSON.parse` accepts; a `none` models a thrown `SyntaxError`. -/
def parseValue : Nat → List Char → Option (Json × List Char)
  | 0, _ => none
  | fuel + 1, cs =>
    match skipWs cs with
    | [] => none
    | c :: t =>
      if c = 'n' then
        match t with
        | 'u' :: 'l' :: 'l' :: r => some (.null, r)
        | _ => none
      else if c = 't' then
        match t with
        | 'r' :: 'u' :: 'e' :: r => some (.bool true, r)
        | _ => none
      else if c = 'f' then
        match t with
        | 'a' :: 'l' :: 's' :: 'e' :: r => some (.bool false, r)
        | _ => none
      else if c = '"' then
        match parseStringChars (t.length + 1) t with
        | some (s, r) => some (.str (String.mk s), r)
        | none => none
      else if c = '[' then
        match skipWs t with
        | ']' :: r => some (.arr [], r)
        | _ =>
          match parseArrayItems fuel t with
          | some (vs, r) => some (.arr vs, r)
          | none => none
      else if c = '{' then
        match skipWs t with
        | '}' :: r => some (.obj [], r)
        | _ =>
          match parseObjItems fuel t with
          | some (fs, r) => some (.obj fs, r)
          | none => none
      else
        match parseNumber (c :: t) with
        | some (q, r) => some (.num q, r)
        | none => none

/-- Comma-separated array items up to the closing bracket. -/
def parseArrayItems : Nat → List Char → Option (List Json × List Char)
  | 0, _ => none
  | fuel + 1, cs =>
    match parseValue fuel cs with
    | none => none
    | some (v, r) =>
      match skipWs r with
      | ',' :: r2 =>
        match parseArrayItems fuel r2 with
        | some (vs, r3) => some (v :: vs, r3)
        | none => none
      | ']' :: r2 => some ([v], r2)
      | _ => none

/-- Comma-separated `"key": value` members up to the closing brace. -/
def parseObjItems : Nat → List Char → Option (List (String × Json) × List Char)
  | 0, _ => none
  | fuel + 1, cs =>
    match skipWs cs with
    | '"' :: t =>
      match parseStringChars (t.length + 1) t with
      | none => none
      | some (k, r) =>
        match skipWs r with
        | ':' :: r2 =>
          match parseValue fuel r2 with
          | none => none
          | some (v, r3) =>
            match skipWs r3 with
            | ',' :: r4 =>
              match parseObjItems fuel r4 with
              | some (fs, r5) => some ((String.mk k, v) :: fs, r5)
              | none => none
            | '}' :: r4 => some ([(String.mk k, v)], r4)
            | _ => none
        | _ => none
    | _ => none

end

/-- Model of JavaScript `JSON.parse`: `some v` when the whole input (up to
trailing whitespace) is one JSON value, `none` when `JSON.parse` throws. -/
def jsonParse (s : String) : Option Json :=
  match parseValue (2 * s.data.length + 2) s.data with
  | some (v, rest) => if (skipWs rest).isEmpty then some v else none
  | none => none

/-- Does the pattern occur at the head of the list? -/
def startsWithPat : List Char → List Char → Bool
  | [], _ => true
  | _ :: _, [] => false
  | p :: ps, c :: cs => p == c && startsWithPat ps cs

/-- Index of the first occurrence of the pattern, scanning left to right
as a regular-expression engine does. -/
def findPat (pat : List Char) : List Char → Option Nat
  | [] => if startsWithPat pat [] then some 0 else none
  | c :: cs =>
    if startsWithPat pat (c :: cs) then some 0
    else (findPat pat cs).map (· + 1)

/-- The backtick character, and the three-backtick code fence. -/
def backtick : Char := Char.ofNat 96

def fencePat : List Char := [backtick, backtick, backtick]

/-- Capture group of the markdown-code-block regular expression used by
`parseLLMResponse` (a fence, an optional `json` tag, optional whitespace,
then a lazily matched body up to the next fence): the regex anchors at the
first fence and the lazy body extends to the next fence after it; no
second fence means no match. -/
def fencedCapture (cs : List Char) : Option (List Char) :=
  match findPat fencePat cs with
  | none => none
  | some i =>
    let after := cs.drop (i + 3)
    let afterTag := if startsWithPat ['j', 's', 'o', 'n'] after then after.drop 4 else after
    let body := skipWs afterTag
    match findPat fencePat body with
    | none => none
    | some j => some (body.take j)

/-- Capture of the greedy bracket regular expression used by
`parseLLMResponse`: from the first opening bracket to the last closing
bracket after it (greedy star with backtracking). -/
def arrayCapture (cs : List Char) : Option (List Char) :=
  match findPat ['['] cs with
  | none => none
  | some i =>
    let rest := cs.drop i
    match findPat [']'] rest.reverse with
    | none => none
    | some k =>
      let j := rest.length - 1 - k
      if 1 ≤ j then some (rest.take (j + 1)) else none

/-- The third extraction strategy of `parseLLMResponse`: match the greedy
bracket regex against the response and `JSON.parse` the match; reached
only when the direct parse succeeded with a non-array (a parse throw is
caught by the surrounding catch and yields `null`). -/
def bracketStrategy (response : String) : Option (List Json) :=
  match arrayCapture response.data with
  | none => none
  | some sub =>
    match jsonParse (String.mk sub) with
    | none => none
    | some (.arr xs) => some xs
    | some _ => none

/-- Model of `parseLLMResponse` (src/app/api/format/route.ts).  The
source wraps all three strategies in one `try`; a throw from any
`JSON.parse` transfers control to the `catch`, which returns `null`
(modelled by `none`), so later strategies run only when the earlier
parse *succeeded* with a non-array value. -/
def parseLLMResponse (response : String) : Option (List Json) :=
  match jsonParse response with
  | none => none
  | some (.arr xs) => some xs
  | some _ =>
    match fencedCapture response.data with
    | some inner =>
      match jsonParse (jsTrim (String.mk inner)) with
      | none => none
      | some (.arr xs) => some xs
      | some _ => bracketStrategy response
    | none => bracketStrategy response

/-- JavaScript `Math.round (num / den)` for non-negative operands:
rounding half away from zero equals `⌊num / den + 1 / 2⌋`. -/
def jsRound (num den : Nat) : Nat :=
  (2 * num + den) / (2 * den)

/-- Size ceiling (`MAX_WHISPER_SIZE`) above which audio is converted or
chunked, from src/lib (part_014). -/
def MAX_WHISPER_SIZE : Nat := 24 * 1024 * 1024

/-- Fixed chunk window (`CHUNK_DURATION_SEC`). -/
def CHUNK_DURATION_SEC : Nat := 600

/-- The `VIDEO_EXTENSIONS` set. -/
def VIDEO_EXTENSIONS : List String := ["mp4", "mkv", "avi", "mov", "webm", "flv", "wmv"]

def isVideoExt (ext : String) : Bool := VIDEO_EXTENSIONS.contains ext

/-- A word-level detail record as persisted (`words` column entries). -/
structure Word where
  word : String
  start : ℚ
  stop : ℚ
  confidence : ℚ
  speaker : Nat

/-- One row of the `utterances` table.  `stop` models the `end_time`
column's companion field name `end` where it appears in payloads.  The
`speaker_label` and `text` columns hold whatever value a correction
update wrote, so they are modelled as JSON values; rows created by the
persisters carry JSON strings. -/
structure Utt where
  id : String
  transcription_id : String
  speaker_label : Json
  text : Json
  start_time : ℚ
  end_time : ℚ
  words : Option (List Word)
  sort_order : Nat

/-- An insert payload for the `utterances` table, as built by the
transcription routes (plain strings; the row id is generated by the
store). -/
structure UttInsert where
  transcription_id : String
  speaker_label : String
  text : String
  start_time : ℚ
  end_time : ℚ
  words : Option (List Word)
  sort_order : Nat

/-- A Whisper segment `{text, start, end}` (`stop` models `end`). -/
structure Seg where
  text : String
  start : ℚ
  stop : ℚ

/-- Outcome of one external call: the value it produced, or the message
of the error it threw. -/
inductive ApiResult (α : Type) where
  | ok (val : α)
  | err (msg : String)

/-- One write against the `transcriptions` row: an `updateProgress`
call (progress plus optional status), or the catch-handler's
status-only write. -/
inductive DbWrite where
  | progress (p : Nat) (status : Option String)
  | statusOnly (s : String)

/-- The progress values carried by a write log, in order. -/
def progressValues (writes : List DbWrite) : List Nat :=
  writes.filterMap (fun w =>
    match w with
    | .progress p _ => some p
    | .statusOnly _ => none)

/-- Body of a successful Whisper transcription response:
`segments ?? []`, the top-level `text ?? ""` and optional `duration`. -/
structure WhisperApiResponse where
  segments : List Seg
  text : String
  duration : Option ℚ

/-- The segment list `callWhisperAPI` returns for a successful response:
on an empty segment list with non-empty whole-transcript text it
synthesizes one segment spanning `[0, duration ?? 0]`; otherwise the
provider's segments in order. -/
def whisperApiSegments (r : WhisperApiResponse) : List Seg :=
  if r.segments.length = 0 ∧ r.text ≠ "" then
    [⟨jsTrim r.text, 0, r.duration.getD 0⟩]
  else r.segments.map (fun seg => ⟨seg.text, seg.start, seg.stop⟩)

/-- `callWhisperAPI`: a non-success HTTP response or timeout throws;
a success response is post-processed by `whisperApiSegments`. -/
def callWhisperAPI (resp : ApiResult WhisperApiResponse) : ApiResult (List Seg) :=
  match resp with
  | .err m => .err m
  | .ok r => .ok (whisperApiSegments r)

/-- JavaScript `parseFloat`: skip leading whitespace, optional sign,
decimal digits with optional fraction and well-formed exponent; the
longest valid numeric prefix is taken and `none` models `NaN` (no valid
prefix).  The `Infinity` spelling is not modelled; `ffprobe` duration
output never produces it. -/
def jsParseFloat (s : String) : Option ℚ :=
  let cs := skipWs s.data
  let (neg, cs1) :=
    match cs with
    | '-' :: t => (true, t)
    | '+' :: t => (false, t)
    | _ => (false, cs)
  let (ids, r1) := takeDigits cs1
  let (fds, r2) :=
    match r1 with
    | '.' :: t => takeDigits t
    | _ => ([], r1)
  if ids = [] ∧ fds = [] then none
  else
    let expVal : Int :=
      match r2 with
      | 'e' :: t | 'E' :: t =>
        match t with
        | '+' :: t2 =>
          let (eds, _) := takeDigits t2
          if eds = [] then 0 else (digitsToNat eds : Int)
        | '-' :: t2 =>
          let (eds, _) := takeDigits t2
          if eds = [] then 0 else -(digitsToNat eds : Int)
        | _ =>
          let (eds, _) := takeDigits t
          if eds = [] then 0 else (digitsToNat eds : Int)
      | _ => 0
    let mag : ℚ :=
      ((digitsToNat ids : ℚ) + (digitsToNat fds : ℚ) / (10 : ℚ) ^ fds.length) * (10 : ℚ) ^ expVal
    some (if neg then -mag else mag)

/-- Trip count of the chunk loop, `Math.ceil(totalDuration / 600)` used
as the bound of `for (let i = 0; i < numChunks; i++)`: a `NaN` duration
(`none`) makes the comparison false immediately, so zero iterations, and
a non-positive bound also yields zero iterations (`Int.toNat` clamps). -/
def numChunksOf (d : Option ℚ) : Nat :=
  match d with
  | none => 0
  | some q => (Int.ceil (q / (CHUNK_DURATION_SEC : ℚ))).toNat

/-- Shift both timestamps of a segment by the chunk's start offset. -/
def offsetSeg (off : ℚ) (s : Seg) : Seg :=
  ⟨s.text, s.start + off, s.stop + off⟩

/-- State accumulated by the chunk loop: segments pushed so far, progress
writes so far, and the message of the throw that aborted it, if any. -/
structure ChunkLoopResult where
  segs : List Seg
  writes : List DbWrite
  failed : Option String

/-- The chunk loop of `runWhisperTranscription`: chunk `i` starts at
`i * CHUNK_DURATION_SEC`; its segments are pushed after adding that
offset to `start` and `end`; then progress
`35 + round(20 * (i + 1) / numChunks)` is written.  A throw from the
chunk encode or the Whisper call (both folded into `chunkResp`) aborts
the loop and the run.  Arguments: per-chunk response, total `numChunks`,
remaining iterations, current index. -/
def chunkLoopGo (chunkResp : Nat → ApiResult WhisperApiResponse) (n : Nat) :
    Nat → Nat → ChunkLoopResult
  | 0, _ => ⟨[], [], none⟩
  | r + 1, i =>
    match callWhisperAPI (chunkResp i) with
    | .err m => ⟨[], [], some m⟩
    | .ok segs =>
      let tail := chunkLoopGo chunkResp n r (i + 1)
      ⟨segs.map (offsetSeg ((i : ℚ) * (CHUNK_DURATION_SEC : ℚ))) ++ tail.segs,
       DbWrite.progress (35 + jsRound (20 * (i + 1)) n) none :: tail.writes,
       tail.failed⟩

def chunkLoopRun (chunkResp : Nat → ApiResult WhisperApiResponse) (n : Nat) : ChunkLoopResult :=
  chunkLoopGo chunkResp n n 0

/-- `map` with the element index as second argument, as in the
JavaScript `list.map((item, idx) => ...)` calls of the persisters. -/
def mapWithIdx {α β : Type} (f : α → Nat → β) : List α → Nat → List β
  | [], _ => []
  | a :: rest, i => f a i :: mapWithIdx f rest (i + 1)

/-- The fixed text of the placeholder utterance. -/
def placeholderText : String := "(Nenhum conteúdo transcrito)"

/-- The single placeholder row inserted when no segment was produced. -/
def placeholderInsert (tid : String) : UttInsert :=
  { transcription_id := tid, speaker_label := "SPEAKER_00", text := placeholderText,
    start_time := 0, end_time := 0, words := none, sort_order := 0 }

/-- `utterancesToInsert` of `runWhisperTranscription`: one record per
segment, `sort_order` equal to the segment's index, text trimmed. -/
def whisperUtterancesToInsert (tid : String) (segs : List Seg) : List UttInsert :=
  mapWithIdx (fun seg idx =>
    { transcription_id := tid, speaker_label := "SPEAKER_00", text := jsTrim seg.text,
      start_time := seg.start, end_time := seg.stop, words := none, sort_order := idx }) segs 0

/-- Step 5 of `runWhisperTranscription`: an empty segment list inserts
exactly the placeholder row; otherwise the mapped records are inserted
as one bulk insert. -/
def whisperPersist (tid : String) (segs : List Seg) : List UttInsert :=
  if segs.isEmpty then [placeholderInsert tid] else whisperUtterancesToInsert tid segs

/-- Environment of one `runWhisperTranscription` run: every external
observation the code makes, in the order it makes them. -/
structure WhisperEnv where
  /-- the `transcriptions` row exists -/
  found : Bool
  /-- the row has a `media_url` -/
  hasMediaUrl : Bool
  /-- the storage download responded 2xx -/
  downloadOk : Bool
  /-- `mediaBuffer.length` -/
  mediaSize : Nat
  /-- lowercased extension of the media URL's path -/
  ext : String
  /-- ffmpeg conversion: size of the converted audio, or a throw -/
  convert : ApiResult Nat
  /-- ffprobe invocation: its stdout, or a throw (non-zero exit/timeout) -/
  probe : ApiResult String
  /-- per-chunk encode+Whisper round trip (an encode throw and a Whisper
  throw abort identically) -/
  chunkResp : Nat → ApiResult WhisperApiResponse
  /-- the single whole-file Whisper round trip -/
  wholeResp : ApiResult WhisperApiResponse
  /-- the checked bulk insert of the mapped records succeeded -/
  insertOk : Bool

/-- Observable outcome of a run: the ordered `transcriptions` writes, the
successful `utterances` insert calls (each one bulk write), and whether
the function returned or threw. -/
structure RunOut where
  writes : List DbWrite
  inserts : List (List UttInsert)
  result : Except String Unit

/-- Shallow embedding of `runWhisperTranscription` (part_014): fetch
checks, progress 15/20, download, conversion decision (video extension or
over-ceiling size), progress 30, then either the chunk path (ffprobe
duration, `parseFloat`, `Math.ceil`, chunk loop) or progress 35 plus one
whole-file call, progress 55, persistence (placeholder insert is not
error-checked in the source; the bulk insert is), progress 65 with status
`formatting`.  Any throw ends the run with that error. -/
def whisperRun (tid : String) (env : WhisperEnv) : RunOut :=
  if ¬env.found then ⟨[], [], .error "Degravação não encontrada"⟩
  else if ¬env.hasMediaUrl then ⟨[], [], .error "Áudio ainda não foi enviado"⟩
  else
    let w0 : List DbWrite := [.progress 15 (some "transcribing"), .progress 20 none]
    if ¬env.downloadOk then ⟨w0, [], .error "Não foi possível baixar o arquivo do Storage"⟩
    else
      let needsConversion := isVideoExt env.ext || decide (env.mediaSize > MAX_WHISPER_SIZE)
      match (if needsConversion then ([DbWrite.progress 25 none], env.convert)
             else ([], .ok env.mediaSize) : List DbWrite × ApiResult Nat) with
      | (convW, .err m) => ⟨w0 ++ convW, [], .error m⟩
      | (convW, .ok audioSize) =>
        let w1 := w0 ++ convW ++ [DbWrite.progress 30 none]
        let segStage : List DbWrite × Except String (List Seg) :=
          if audioSize > MAX_WHISPER_SIZE then
            match env.probe with
            | .err m => ([], .error m)
            | .ok out =>
              let n := numChunksOf (jsParseFloat (jsTrim out))
              let lr := chunkLoopRun env.chunkResp n
              (lr.writes,
               match lr.failed with
               | some m => .error m
               | none => .ok lr.segs)
          else
            ([DbWrite.progress 35 none],
             match callWhisperAPI env.wholeResp with
             | .err m => .error m
             | .ok segs => .ok segs)
        match segStage with
        | (segW, .error m) => ⟨w1 ++ segW, [], .error m⟩
        | (segW, .ok allSegments) =>
          let w2 := w1 ++ segW ++ [DbWrite.progress 55 none]
          if allSegments.isEmpty then
            ⟨w2 ++ [DbWrite.progress 65 (some "formatting")], [[placeholderInsert tid]], .ok ()⟩
          else if env.insertOk then
            ⟨w2 ++ [DbWrite.progress 65 (some "formatting")],
             [whisperUtterancesToInsert tid allSegments], .ok ()⟩
          else ⟨w2, [], .error "Erro ao salvar falas"⟩

/-- A word record of a Deepgram utterance (`speaker` may be absent). -/
structure DGWord where
  word : String
  start : ℚ
  stop : ℚ
  confidence : ℚ
  speaker : Option Nat

/-- One entry of `results.utterances` in a Deepgram response. -/
structure DGUtt where
  speaker : Option Nat
  transcript : String
  start : ℚ
  stop : ℚ
  words : Option (List DGWord)

/-- `String(n).padStart(2, "0")`. -/
def padStart2 (s : String) : String :=
  if 2 ≤ s.length then s else String.mk (List.replicate (2 - s.length) '0') ++ s

/-- `SPEAKER_${String(utt.speaker ?? 0).padStart(2, "0")}`. -/
def dgSpeakerLabel (speaker : Option Nat) : String :=
  "SPEAKER_" ++ padStart2 (toString (speaker.getD 0))

/-- `utterancesToInsert` of `POST /api/transcribe-deepgram`: one record
per utterance, `sort_order` equal to its index, speaker index mapped to a
padded label, words preserved with `speaker ?? 0`. -/
def dgUtterancesToInsert (tid : String) (utts : List DGUtt) : List UttInsert :=
  mapWithIdx (fun u idx =>
    { transcription_id := tid,
      speaker_label := dgSpeakerLabel u.speaker,
      text := jsTrim u.transcript,
      start_time := u.start,
      end_time := u.stop,
      words := u.words.map (fun ws => ws.map (fun w =>
        ⟨w.word, w.start, w.stop, w.confidence, w.speaker.getD 0⟩)),
      sort_order := idx }) utts 0

/-- Persistence decision of `POST /api/transcribe-deepgram` (step 5):
with zero utterances, the channel-fallback transcript is inserted as one
row only when it is non-empty (JavaScript truthiness of `transcript`);
with an empty fallback as well, nothing is inserted and the route still
proceeds to write status `formatting`. -/
def dgPersist (tid : String) (utts : List DGUtt) (fallbackTranscript : String) : List UttInsert :=
  if utts.length = 0 then
    if fallbackTranscript ≠ "" then
      [{ transcription_id := tid, speaker_label := "SPEAKER_00",
         text := jsTrim fallbackTranscript, start_time := 0, end_time := 0,
         words := none, sort_order := 0 }]
    else []
  else dgUtterancesToInsert tid utts

/-- The projection of an utterance row sent to the LLM
(`utterancesForLLM`). -/
structure LLMItem where
  id : String
  speaker : Json
  text : Json
  start_time : ℚ

def utteranceForLLM (u : Utt) : LLMItem :=
  ⟨u.id, u.speaker_label, u.text, u.start_time⟩

/-- `BATCH_SIZE` of the format route. -/
def BATCH_SIZE : Nat := 40

/-- The batching loop, fuel-recursive (each step consumes at least one
element, so `l.length` fuel always suffices). -/
def sliceBatchesGo {α : Type} : Nat → List α → List (List α)
  | _, [] => []
  | 0, _ :: _ => []
  | fuel + 1, a :: rest => (a :: rest).take BATCH_SIZE :: sliceBatchesGo fuel (rest.drop (BATCH_SIZE - 1))

/-- The batching loop `for (i = 0; i < len; i += 40) push(slice(i, i + 40))`. -/
def sliceBatches {α : Type} (l : List α) : List (List α) :=
  sliceBatchesGo l.length l

/-- Outcome of one LLM round trip in the batch loop: a 2xx response with
the extracted message content (`?? ""`), a non-2xx response (the source
logs it and `continue`s), or a thrown exception (network failure or
body-read failure), which escapes to the route's catch. -/
inductive LLMOutcome where
  | ok (content : String)
  | httpFail (errText : String)
  | thrown (msg : String)

/-- State of the batch loop: the `allUpdates` array collected so far, the
progress writes so far, and the throw that aborted it, if any. -/
structure BatchLoopResult where
  updates : List Json
  writes : List DbWrite
  failed : Option String

/-- The batch loop of `POST /api/format`.  On a 2xx outcome the content
is parsed (an unparseable response contributes nothing) and progress
`70 + round(20 * (k + 1) / m)` is written; `batches.indexOf(batch)`
compares by object reference in JavaScript and each batch is a fresh
`slice`, so it always equals the iteration index `k`.  On a non-2xx
outcome the source `continue`s: no updates and no progress write for that
batch.  A throw aborts the loop (and, in the route, the run).
Arguments: per-iteration outcome, `m = batches.length`, iteration index,
remaining batches. -/
def batchLoopGo (outcomes : Nat → LLMOutcome) (m : Nat) :
    Nat → List (List LLMItem) → BatchLoopResult
  | _, [] => ⟨[], [], none⟩
  | k, _batch :: rest =>
    match outcomes k with
    | .thrown msg => ⟨[], [], some msg⟩
    | .httpFail _ => batchLoopGo outcomes m (k + 1) rest
    | .ok content =>
      let upds := (parseLLMResponse content).getD []
      let tail := batchLoopGo outcomes m (k + 1) rest
      ⟨upds ++ tail.updates,
       DbWrite.progress (70 + jsRound (20 * (k + 1)) m) none :: tail.writes,
       tail.failed⟩

/-- One update write of step 3 of the format route:
`update({speaker_label, text}).eq("id", update.id)`.  The filter is on
the row id only (not on `transcription_id`); an element whose `id` field
is not a string matches no uuid.  A field that is absent on the parsed
element is `undefined`, is dropped from the request payload, and leaves
the stored value unchanged. -/
def applyJsonUpdate (db : List Utt) (j : Json) : List Utt :=
  db.map (fun u =>
    let idMatches : Bool :=
      match j.getField "id" with
      | some (.str s) => s == u.id
      | _ => false
    if idMatches then
      { u with
        speaker_label := (j.getField "speaker_label").getD u.speaker_label,
        text := (j.getField "text").getD u.text }
    else u)

/-- Result of one format-route run over the job's fetched utterances. -/
structure FormatResult where
  db : List Utt
  writes : List DbWrite
  result : Except String Unit

/-- Shallow embedding of `POST /api/format`: fetch the job's utterances
in `sort_order` order (the `utts` argument; an empty result returns 404
before any write), batch them by 40, write progress 70, run the batch
loop, and only after the whole loop apply every collected update with a
per-utterance write, then write progress 100 with status `completed`.  A
throw inside the loop reaches the route's catch, which writes status
`error` (without progress) and returns; the collected updates are never
applied in that case. -/
def formatRun (utts : List Utt) (outcomes : Nat → LLMOutcome) : FormatResult :=
  if utts.isEmpty then ⟨utts, [], .error "Nenhuma fala encontrada"⟩
  else
    let batches := sliceBatches (utts.map utteranceForLLM)
    let loop := batchLoopGo outcomes batches.length 0 batches
    match loop.failed with
    | some msg =>
      ⟨utts, DbWrite.progress 70 none :: loop.writes ++ [DbWrite.statusOnly "error"], .error msg⟩
    | none =>
      ⟨loop.updates.foldl applyJsonUpdate utts,
       DbWrite.progress 70 none :: loop.writes ++ [DbWrite.progress 100 (some "completed")],
       .ok ()⟩

/-- The sample correction-update array used to compare response shapes. -/
def sampleUpdatesArray : String :=
  "[\x7b\"id\":\"u1\",\"speaker_label\":\"JUIZ(A)\",\"text\":\"Bom dia.\"\x7d]"

/-- The same array inside a fenced code block. -/
def fencedResponse : String := "```json\n" ++ sampleUpdatesArray ++ "\n```"

/-- The same array embedded in surrounding prose. -/
def proseResponse : String :=
  "Aqui o resultado:\n" ++ sampleUpdatesArray ++ "\nEspero ter ajudado."

/-- A row belonging to a different job than the one being corrected. -/
def foreignRow : Utt :=
  { id := "x9", transcription_id := "otherJob", speaker_label := .str "SPEAKER_00",
    text := .str "fala", start_time := 3, end_time := 4, words := none, sort_order := 7 }

/-- An update element whose id points at `foreignRow`, with a malformed
extra field and no type discipline. -/
def foreignUpdate : Json :=
  .obj [("id", .str "x9"), ("speaker_label", .num 5), ("text", .str "novo"),
        ("start_time", .bool true)]

/-- The fields of an utterance row that a correction write never
mentions in its payload. -/
def untouchedFields (u : Utt) :
    String × String × ℚ × ℚ × Option (List Word) × Nat :=
  (u.id, u.transcription_id, u.start_time, u.end_time, u.words, u.sort_order)

/-- An over-ceiling audio input whose ffprobe output cannot be parsed as
a number; the chunk responses and the whole-file response are irrelevant
because zero chunks are processed. -/
def unparseableDurationEnv : WhisperEnv :=
  { found := true, hasMediaUrl := true, downloadOk := true,
    mediaSize := MAX_WHISPER_SIZE + 1, ext := "mp3",
    convert := .ok (MAX_WHISPER_SIZE + 1),
    probe := .ok "",
    chunkResp := fun _ => .err "unreached",
    wholeResp := .err "unreached",
    insertOk := true }

/-- A canonical stored utterance row. -/
def mkUtt (k : Nat) : Utt :=
  { id := "u" ++ toString k, transcription_id := "t1",
    speaker_label := .str "SPEAKER_00", text := .str "fala",
    start_time := (k : ℚ), end_time := (k : ℚ), words := none, sort_order := k }

/-- Forty-one utterances: two correction batches (40 + 1). -/
def utts41 : List Utt := (List.range 41).map mkUtt

/-- A well-formed LLM response correcting the first utterance. -/
def c2Batch0Response : String :=
  "[\x7b\"id\":\"u0\",\"speaker_label\":\"JUIZ(A)\",\"text\":\"Bom dia.\"\x7d]"

/-- Batch 0 round-trip succeeds and parses; batch 1 throws. -/
def c2Outcomes : Nat → LLMOutcome := fun k =>
  if k = 0 then .ok c2Batch0Response else .thrown "network failure"

/-- What a batch contributes to `allUpdates`: the parsed array of a 2xx
response, nothing otherwise. -/
def batchContribution (outcomes : Nat → LLMOutcome) (j : Nat) : List Json :=
  match outcomes j with
  | .ok c => (parseLLMResponse c).getD []
  | _ => []

/-- The `allUpdates` array at the end of a loop over `m` batches. -/
def collectedUpdates (m : Nat) (outcomes : Nat → LLMOutcome) : List Json :=
  (List.range m).flatMap (batchContribution outcomes)

/-- Number of correction batches for a job's utterance list. -/
def numBatchesOf (utts : List Utt) : Nat :=
  (sliceBatches (utts.map utteranceForLLM)).length

/-! ### Helper lemmas -/

theorem mapWithIdx_length {α β : Type} (f : α → Nat → β) :
    ∀ (l : List α) (i : Nat), (mapWithIdx f l i).length = l.length := by
  intro l
  induction l with
  | nil => intro i; rfl
  | cons a rest ih => intro i; simp [mapWithIdx, ih]

theorem mapWithIdx_proj_range {α β : Type} (f : α → Nat → β) (g : β → Nat)
    (h : ∀ a k, g (f a k) = k) :
    ∀ (l : List α) (i : Nat), (mapWithIdx f l i).map g = List.range' i l.length := by
  intro l
  induction l with
  | nil => intro i; rfl
  | cons a rest ih =>
    intro i
    simp only [mapWithIdx, List.map_cons, h, ih, List.length_cons]
    rfl

/-! ### C8: persisted records and sort order -/

/-- C8: for every non-empty ordered input list of N segments (Whisper
path) — and for every utterance list of the Deepgram path — the persister
builds exactly N records for a single bulk insert, whose `sort_order`
values are exactly `0..N-1` in input order (no gaps, no duplicates). -/
theorem c8_persist_sort_order (tid : String) (segs : List Seg) (dgs : List DGUtt)
    (hne : segs ≠ []) :
    whisperPersist tid segs = whisperUtterancesToInsert tid segs ∧
    (whisperPersist tid segs).length = segs.length ∧
    (whisperPersist tid segs).map (·.sort_order) = List.range segs.length ∧
    (dgUtterancesToInsert tid dgs).length = dgs.length ∧
    (dgUtterancesToInsert tid dgs).map (·.sort_order) = List.range dgs.length := by
  have hpe : whisperPersist tid segs = whisperUtterancesToInsert tid segs := by
    simp [whisperPersist, hne]
  refine ⟨hpe, ?_, ?_, ?_, ?_⟩
  · rw [hpe]; exact mapWithIdx_length _ segs 0
  · rw [hpe, List.range_eq_range']
    exact mapWithIdx_proj_range _ _ (fun a k => rfl) segs 0
  · exact mapWithIdx_length _ dgs 0
  · rw [List.range_eq_range']
    exact mapWithIdx_proj_range _ _ (fun a k => rfl) dgs 0

/-- C8 witness: a concrete one-segment input. -/
theorem c8_persist_sort_order_witness :
    ([⟨"ola", 0, 1⟩] : List Seg) ≠ [] ∧
    (whisperPersist "t1" [⟨"ola", 0, 1⟩]).map (·.sort_order) = List.range 1 :=
  ⟨List.cons_ne_nil _ _,
   (c8_persist_sort_order "t1" [⟨"ola", 0, 1⟩] [] (List.cons_ne_nil _ _)).2.2.1⟩

/-! ### C4: empty-result persistence -/

/-- C4 counterexample: a Deepgram run whose utterance list is empty and
whose channel-fallback transcript is also empty persists no utterance at
all (the route then still writes status `formatting` and returns
success), so the job is left with zero utterances — not with one
placeholder as the claim states. -/
theorem c4_dg_empty_persists_nothing : dgPersist "t1" [] "" = [] := rfl

/-- C4 amended: the Whisper path persists exactly one placeholder row
with the fixed text when the final segment list is empty; the Deepgram
path, on an empty utterance list, inserts the fallback transcript as one
row only when that transcript is non-empty, and inserts nothing when it
is empty. -/
theorem c4_amended_empty_result_persistence (tid t : String) :
    whisperPersist tid [] = [placeholderInsert tid] ∧
    (placeholderInsert tid).text = "(Nenhum conteúdo transcrito)" ∧
    dgPersist tid [] t =
      (if t = "" then []
       else [{ transcription_id := tid, speaker_label := "SPEAKER_00", text := jsTrim t,
               start_time := 0, end_time := 0, words := none, sort_order := 0 }]) := by
  refine ⟨rfl, rfl, ?_⟩
  by_cases h : t = "" <;> simp [dgPersist, h]

/-! ### C1: the three accepted response shapes -/

/-- C1: the bare-array shape parses to the update list, but the fenced
and prose shapes return `null`: `JSON.parse` throws on them and the
single surrounding `try`/`catch` returns `null` before the fallback
extraction strategies (written precisely for those shapes) can run.
This contradicts the documented intent of the code's own comments and
the spec's parse-tolerance sentence. -/
theorem c1_fenced_and_prose_shapes_rejected :
    parseLLMResponse sampleUpdatesArray =
      some [Json.obj [("id", Json.str "u1"), ("speaker_label", Json.str "JUIZ(A)"),
                      ("text", Json.str "Bom dia.")]] ∧
    parseLLMResponse fencedResponse = none ∧
    parseLLMResponse proseResponse = none :=
  ⟨rfl, rfl, rfl⟩

/-! ### C10: no element validation, id-keyed application -/

/-- C10: whenever the direct `JSON.parse` of the response yields an
array, `parseLLMResponse` returns exactly that array, with no validation
of the elements' shape or field types; and the update write is keyed
only by the `id` value an element carries — any table row whose id
equals it is updated, with no check that the row belongs to the batch or
to the job (`u.transcription_id` is unconstrained below). -/
theorem c10_unvalidated_id_keyed_updates :
    (∀ (s : String) (elems : List Json),
      jsonParse s = some (.arr elems) → parseLLMResponse s = some elems) ∧
    (∀ (db : List Utt) (j : Json) (u : Utt), u ∈ db →
      j.getField "id" = some (.str u.id) →
      { u with speaker_label := (j.getField "speaker_label").getD u.speaker_label,
               text := (j.getField "text").getD u.text } ∈ applyJsonUpdate db j) := by
  constructor
  · intro s elems h
    simp [parseLLMResponse, h]
  · intro db j u hu hid
    refine List.mem_map.mpr ⟨u, hu, ?_⟩
    simp [hid]

/-- C10 witness: a bare array of one ill-shaped element is returned
unchanged, and applying the element rewrites the row of another job. -/
theorem c10_unvalidated_id_keyed_updates_witness :
    parseLLMResponse "[\x7b\"id\":\"x9\"\x7d]" = some [Json.obj [("id", Json.str "x9")]] ∧
    { foreignRow with speaker_label := (foreignUpdate.getField "speaker_label").getD foreignRow.speaker_label,
                      text := (foreignUpdate.getField "text").getD foreignRow.text } ∈
      applyJsonUpdate [foreignRow] foreignUpdate :=
  ⟨c10_unvalidated_id_keyed_updates.1 "[\x7b\"id\":\"x9\"\x7d]" [Json.obj [("id", Json.str "x9")]] rfl,
   c10_unvalidated_id_keyed_updates.2 [foreignRow] foreignUpdate foreignRow
     (List.mem_singleton.mpr rfl) rfl⟩

/-! ### C9: frame of the correction writes -/

theorem applyJsonUpdate_frame (db : List Utt) (j : Json) :
    (applyJsonUpdate db j).map untouchedFields = db.map untouchedFields := by
  simp only [applyJsonUpdate, List.map_map]
  apply List.map_congr_left
  intro u _
  dsimp only [Function.comp]
  split
  · rfl
  · rfl

theorem applyJsonUpdates_frame (updates : List Json) :
    ∀ (db : List Utt),
      (updates.foldl applyJsonUpdate db).map untouchedFields = db.map untouchedFields := by
  induction updates with
  | nil => intro db; rfl
  | cons j rest ih =>
    intro db
    rw [List.foldl_cons, ih (applyJsonUpdate db j), applyJsonUpdate_frame]

/-- C9: the correction writes modify only `speaker_label` and `text`;
`id`, `start_time`, `end_time`, `words`, `sort_order` and the parent job
reference of every row are unchanged — both for any sequence of update
writes and for a whole format-route run. -/
theorem c9_correction_frame :
    (∀ (db : List Utt) (updates : List Json),
      (updates.foldl applyJsonUpdate db).map untouchedFields = db.map untouchedFields) ∧
    (∀ (utts : List Utt) (outcomes : Nat → LLMOutcome),
      ((formatRun utts outcomes).db).map untouchedFields = utts.map untouchedFields) := by
  constructor
  · intro db updates; exact applyJsonUpdates_frame updates db
  · intro utts outcomes
    unfold formatRun
    split
    · rfl
    · dsimp only
      split
      · rfl
      · exact applyJsonUpdates_frame _ utts

/-! ### C7: chunk splitting and offset bookkeeping -/

theorem chunkLoopGo_all_ok (resp : Nat → WhisperApiResponse) (n : Nat) :
    ∀ (r i : Nat),
      chunkLoopGo (fun k => .ok (resp k)) n r i =
        ⟨(List.range' i r).flatMap (fun k =>
            (whisperApiSegments (resp k)).map (offsetSeg ((k : ℚ) * (CHUNK_DURATION_SEC : ℚ)))),
          (List.range' i r).map (fun k =>
            DbWrite.progress (35 + jsRound (20 * (k + 1)) n) none),
          none⟩ := by
  intro r
  induction r with
  | zero => intro i; rfl
  | succ r ih =>
    intro i
    simp only [chunkLoopGo, callWhisperAPI, ih (i + 1)]
    rfl

/-- C7: for a probed duration `D`, the chunk loop runs exactly
`⌈D / 600⌉` iterations (`CHUNK_DURATION_SEC = 600`); chunk `i` starts at
offset `i × 600` seconds; chunks are processed in index order; and every
segment returned for chunk `i` has that offset added to both its start
and end timestamp before being appended to the global segment list. -/
theorem c7_chunk_offsets (D : ℚ) (resp : Nat → WhisperApiResponse) :
    numChunksOf (some D) = (Int.ceil (D / (600 : ℚ))).toNat ∧
    CHUNK_DURATION_SEC = 600 ∧
    chunkLoopRun (fun k => .ok (resp k)) (numChunksOf (some D)) =
      ⟨(List.range (numChunksOf (some D))).flatMap (fun i =>
          (whisperApiSegments (resp i)).map (offsetSeg ((i : ℚ) * (CHUNK_DURATION_SEC : ℚ)))),
        (List.range (numChunksOf (some D))).map (fun i =>
          DbWrite.progress (35 + jsRound (20 * (i + 1)) (numChunksOf (some D))) none),
        none⟩ := by
  refine ⟨?_, rfl, ?_⟩
  · norm_num [numChunksOf, CHUNK_DURATION_SEC]
  · rw [chunkLoopRun, chunkLoopGo_all_ok, List.range_eq_range']

/-! ### C3: zero or unparseable probed duration -/

/-- C3 counterexample: with a duration string that does not parse as a
number (`parseFloat` gives `NaN`), the run does not fail — the loop bound
`i < NaN` is false, zero chunks are processed, the empty segment list is
persisted as the single placeholder row, and the run ends successfully
with status `formatting`. -/
theorem c3_unparseable_duration_run_succeeds :
    whisperRun "t1" unparseableDurationEnv =
      ⟨[.progress 15 (some "transcribing"), .progress 20 none, .progress 25 none,
        .progress 30 none, .progress 55 none, .progress 65 (some "formatting")],
        [[placeholderInsert "t1"]], .ok ()⟩ := by
  rfl

/-- C3 amended: on the chunking path (conversion produced audio still
over the size ceiling), a *failing* ffprobe invocation (non-zero exit or
timeout) does abort the run with that error; but a probe output whose
parsed duration gives a chunk count of zero — in particular a zero or
negative duration, or an output `parseFloat` cannot parse — does not
fail the run: zero chunks are transcribed and the run completes,
persisting the single placeholder utterance. -/
theorem c3_amended_probe_vs_duration (tid : String) (env : WhisperEnv) (audioSize : Nat)
    (hf : env.found = true) (hm : env.hasMediaUrl = true) (hd : env.downloadOk = true)
    (hc : (isVideoExt env.ext || decide (env.mediaSize > MAX_WHISPER_SIZE)) = true)
    (hcv : env.convert = .ok audioSize)
    (hbig : audioSize > MAX_WHISPER_SIZE) :
    (∀ m, env.probe = .err m → (whisperRun tid env).result = .error m) ∧
    (∀ out, env.probe = .ok out → numChunksOf (jsParseFloat (jsTrim out)) = 0 →
      (whisperRun tid env).result = .ok () ∧
      (whisperRun tid env).inserts = [[placeholderInsert tid]]) ∧
    (∀ q : ℚ, q ≤ 0 → numChunksOf (some q) = 0) := by
  refine ⟨?_, ?_, ?_⟩
  · intro m hp
    simp [whisperRun, hf, hm, hd, hc, hcv, hp, hbig]
  · intro out hp hn
    constructor <;>
      simp [whisperRun, hf, hm, hd, hc, hcv, hp, hbig, hn, chunkLoopRun, chunkLoopGo]
  · intro q hq
    have hdiv : (q / (CHUNK_DURATION_SEC : ℚ)) ≤ 0 :=
      div_nonpos_iff.mpr (Or.inr ⟨hq, by norm_num [CHUNK_DURATION_SEC]⟩)
    simp only [numChunksOf, Int.toNat_eq_zero]
    exact Int.ceil_le.mpr (by exact_mod_cast hdiv)

/-- C3 amended witness: a concrete run whose ffprobe call throws ends in
that error. -/
theorem c3_amended_probe_vs_duration_witness :
    (whisperRun "t1"
      { unparseableDurationEnv with probe := .err "ffprobe falhou" }).result =
      .error "ffprobe falhou" :=
  (c3_amended_probe_vs_duration "t1"
      { unparseableDurationEnv with probe := .err "ffprobe falhou" }
      (MAX_WHISPER_SIZE + 1) rfl rfl rfl (by decide) rfl (by decide)).1
    "ffprobe falhou" rfl

/-! ### C2: when parsed updates are applied -/

/-- C2 counterexample: batch 0's update parses successfully, yet after
batch 1 throws, the run aborts with **no** utterance write at all — the
updates are collected in `allUpdates` and applied only after the whole
batch loop, so updates from earlier batches do not survive a failure
during a later batch. -/
theorem c2_earlier_batch_update_lost :
    parseLLMResponse c2Batch0Response =
      some [Json.obj [("id", Json.str "u0"), ("speaker_label", Json.str "JUIZ(A)"),
                      ("text", Json.str "Bom dia.")]] ∧
    (formatRun utts41 c2Outcomes).db = utts41 ∧
    (formatRun utts41 c2Outcomes).result = .error "network failure" :=
  ⟨rfl, rfl, rfl⟩

theorem batchLoopGo_no_thrown (outcomes : Nat → LLMOutcome) (m : Nat) :
    ∀ (rest : List (List LLMItem)) (k : Nat),
      (∀ j msg, k ≤ j → j < k + rest.length → outcomes j ≠ .thrown msg) →
      (batchLoopGo outcomes m k rest).failed = none ∧
      (batchLoopGo outcomes m k rest).updates =
        (List.range' k rest.length).flatMap (batchContribution outcomes) := by
  intro rest
  induction rest with
  | nil => intro k _; exact ⟨rfl, rfl⟩
  | cons b rest ih =>
    intro k h
    have htail := ih (k + 1) (fun j msg h1 h2 =>
      h j msg (by omega) (by simp only [List.length_cons]; omega))
    have hcons : List.range' k (b :: rest).length =
        k :: List.range' (k + 1) rest.length := rfl
    simp only [batchLoopGo]
    cases hk : outcomes k with
    | thrown msg =>
      exact absurd hk (h k msg le_rfl (by simp only [List.length_cons]; omega))
    | httpFail e =>
      refine ⟨htail.1, ?_⟩
      rw [htail.2, hcons]
      simp [batchContribution, hk]
    | ok c =>
      refine ⟨htail.1, ?_⟩
      simp only [htail.2, hcons]
      simp [batchContribution, hk]

theorem batchLoopGo_thrown_aborts (outcomes : Nat → LLMOutcome) (m : Nat) :
    ∀ (rest : List (List LLMItem)) (k j : Nat) (msg : String),
      k ≤ j → j < k + rest.length → outcomes j = .thrown msg →
      ∃ m2, (batchLoopGo outcomes m k rest).failed = some m2 := by
  intro rest
  induction rest with
  | nil => intro k j msg h1 h2 _; simp at h2; omega
  | cons b rest ih =>
    intro k j msg h1 h2 hj
    simp only [batchLoopGo]
    cases hk : outcomes k with
    | thrown msg2 => exact ⟨msg2, rfl⟩
    | httpFail e =>
      have hne : j ≠ k := fun he => by rw [he, hk] at hj; cases hj
      exact ih (k + 1) j msg (by omega) (by simp only [List.length_cons] at h2; omega) hj
    | ok c =>
      have hne : j ≠ k := fun he => by rw [he, hk] at hj; cases hj
      obtain ⟨m2, hm2⟩ :=
        ih (k + 1) j msg (by omega) (by simp only [List.length_cons] at h2; omega) hj
      exact ⟨m2, hm2⟩

/-- C2 amended: the batch loop only *collects* parsed updates; they are
applied, one per-utterance write each, after the whole loop.  When no
batch throws, every collected update is applied; when any batch within
range throws, the run aborts before the apply phase and **no** update at
all is applied — partial progress from earlier batches does not
survive. -/
theorem c2_amended_updates_applied_after_loop (utts : List Utt) (outcomes : Nat → LLMOutcome) :
    ((∀ k msg, k < numBatchesOf utts → outcomes k ≠ .thrown msg) →
      (formatRun utts outcomes).db =
        (collectedUpdates (numBatchesOf utts) outcomes).foldl applyJsonUpdate utts) ∧
    (∀ k msg, k < numBatchesOf utts → outcomes k = .thrown msg →
      (formatRun utts outcomes).db = utts) := by
  constructor
  · intro h
    by_cases hemp : utts.isEmpty
    · have h0 : utts = [] := List.isEmpty_iff.mp hemp
      subst h0
      simp [formatRun, collectedUpdates, numBatchesOf, sliceBatches, sliceBatchesGo]
    · have hloop := batchLoopGo_no_thrown outcomes
        (sliceBatches (utts.map utteranceForLLM)).length
        (sliceBatches (utts.map utteranceForLLM)) 0
        (fun j msg h1 h2 => h j msg (by simpa [numBatchesOf] using h2))
      simp only [formatRun, hemp, Bool.false_eq_true, if_false, hloop.1]
      rw [hloop.2]
      simp only [collectedUpdates, numBatchesOf, List.range_eq_range']
  · intro k msg hk hthrown
    by_cases hemp : utts.isEmpty
    · have h0 : utts = [] := List.isEmpty_iff.mp hemp
      subst h0
      simp [numBatchesOf, sliceBatches, sliceBatchesGo] at hk
    · obtain ⟨m2, hm2⟩ := batchLoopGo_thrown_aborts outcomes
        (sliceBatches (utts.map utteranceForLLM)).length
        (sliceBatches (utts.map utteranceForLLM)) 0 k msg (Nat.zero_le _)
        (by simpa [numBatchesOf] using hk) hthrown
      simp only [formatRun, hemp, Bool.false_eq_true, if_false, hm2]

/-- C2 amended witness: a one-batch run with a parseable empty-array
response applies the (empty) collected update list after the loop. -/
theorem c2_amended_updates_applied_after_loop_witness :
    (formatRun [mkUtt 0] (fun _ => .ok "[]")).db =
      (collectedUpdates (numBatchesOf [mkUtt 0]) (fun _ => .ok "[]")).foldl
        applyJsonUpdate [mkUtt 0] :=
  (c2_amended_updates_applied_after_loop [mkUtt 0] (fun _ => .ok "[]")).1
    (fun _ _ _ h => LLMOutcome.noConfusion h)

/-! ### C5: per-batch failure is non-fatal -/

theorem batchLoopGo_writes_shape (outcomes : Nat → LLMOutcome) (m : Nat) :
    ∀ (rest : List (List LLMItem)) (k : Nat),
      ∀ w ∈ (batchLoopGo outcomes m k rest).writes, ∃ p, w = DbWrite.progress p none := by
  intro rest
  induction rest with
  | nil => intro k w hw; cases hw
  | cons b rest ih =>
    intro k w hw
    simp only [batchLoopGo] at hw
    cases hk : outcomes k with
    | thrown msg => rw [hk] at hw; cases hw
    | httpFail e => rw [hk] at hw; exact ih (k + 1) w hw
    | ok c =>
      rw [hk] at hw
      rcases List.mem_cons.mp hw with h1 | h2
      · exact ⟨70 + jsRound (20 * (k + 1)) m, h1⟩
      · exact ih (k + 1) w h2

/-- C5: when no batch throws, a batch whose LLM call returned non-2xx,
or whose 2xx response does not parse, contributes zero updates for that
batch only: the loop keeps consuming the remaining batches (each outcome
index is consumed exactly once, with no retry), the run still completes
with progress 100 and status `completed`, no error status is ever
written, and the updates collected from the other batches are all
applied. -/
theorem c5_batch_failure_nonfatal (utts : List Utt) (outcomes : Nat → LLMOutcome) (k : Nat)
    (hnothrown : ∀ j msg, j < numBatchesOf utts → outcomes j ≠ .thrown msg)
    (hk : k < numBatchesOf utts)
    (hfail : (∃ e, outcomes k = .httpFail e) ∨
             (∃ c, outcomes k = .ok c ∧ parseLLMResponse c = none)) :
    (formatRun utts outcomes).result = .ok () ∧
    (∃ w, (formatRun utts outcomes).writes = w ++ [DbWrite.progress 100 (some "completed")]) ∧
    (∀ s, DbWrite.statusOnly s ∉ (formatRun utts outcomes).writes) ∧
    batchContribution outcomes k = [] ∧
    (formatRun utts outcomes).db =
      (collectedUpdates (numBatchesOf utts) outcomes).foldl applyJsonUpdate utts := by
  have hne : utts.isEmpty = false := by
    cases he : utts.isEmpty
    · rfl
    · rw [List.isEmpty_iff.mp he] at hk
      simp [numBatchesOf, sliceBatches, sliceBatchesGo] at hk
  have hloop := batchLoopGo_no_thrown outcomes
    (sliceBatches (utts.map utteranceForLLM)).length
    (sliceBatches (utts.map utteranceForLLM)) 0
    (fun j msg h1 h2 => hnothrown j msg (by simpa [numBatchesOf] using h2))
  refine ⟨?_, ?_, ?_, ?_, ?_⟩
  · simp [formatRun, hne, hloop.1]
  · refine ⟨DbWrite.progress 70 none ::
      (batchLoopGo outcomes (sliceBatches (utts.map utteranceForLLM)).length 0
        (sliceBatches (utts.map utteranceForLLM))).writes, ?_⟩
    simp [formatRun, hne, hloop.1]
  · intro s hmem
    simp only [formatRun, hne, Bool.false_eq_true, if_false, hloop.1] at hmem
    rcases List.mem_cons.mp hmem with h1 | h2
    · cases h1
    · rcases List.mem_append.mp h2 with h3 | h4
      · obtain ⟨p, hp⟩ := batchLoopGo_writes_shape _ _ _ 0 _ h3
        cases hp
      · exact DbWrite.noConfusion (List.mem_singleton.mp h4)
  · rcases hfail with ⟨e, he⟩ | ⟨c, hc, hp⟩
    · simp [batchContribution, he]
    · simp [batchContribution, hc, hp]
  · simp only [formatRun, hne, Bool.false_eq_true, if_false, hloop.1]
    rw [hloop.2]
    simp only [collectedUpdates, numBatchesOf, List.range_eq_range']

/-- C5 witness: a single-batch job whose only LLM call returns non-2xx
still completes. -/
theorem c5_batch_failure_nonfatal_witness :
    (formatRun [mkUtt 0] (fun _ => .httpFail "500")).result = .ok () :=
  (c5_batch_failure_nonfatal [mkUtt 0] (fun _ => .httpFail "500") 0
    (fun _ _ _ h => LLMOutcome.noConfusion h)
    (by simp [numBatchesOf, sliceBatches, sliceBatchesGo, utteranceForLLM])
    (Or.inl ⟨"500", rfl⟩)).1

/-! ### C6: progress monotonicity -/

theorem jsRound_mono {a b : Nat} (d : Nat) (h : a ≤ b) : jsRound a d ≤ jsRound b d :=
  Nat.div_le_div_right (by omega)

theorem jsRound_le_20 {j n : Nat} (h : j ≤ n) : jsRound (20 * j) n ≤ 20 := by
  rcases Nat.eq_zero_or_pos n with hn | hn
  · subst hn
    simp [jsRound]
  · have h2 : 0 < 2 * n := by omega
    have : (2 * (20 * j) + n) < 21 * (2 * n) := by omega
    have hlt : jsRound (20 * j) n < 21 := by
      rw [jsRound, Nat.div_lt_iff_lt_mul h2]
      omega
    omega

theorem sorted_map_range' (f : Nat → Nat) (hf : ∀ a b, a ≤ b → f a ≤ f b) (s n : Nat) :
    List.Sorted (· ≤ ·) ((List.range' s n).map f) :=
  List.Pairwise.map f (fun a b hab => hf a b (Nat.le_of_lt hab)) (List.pairwise_lt_range' s n)

theorem sorted_map_sublist (f : Nat → Nat) (hf : ∀ a b, a ≤ b → f a ≤ f b)
    {l : List Nat} {s n : Nat} (hsub : l.Sublist (List.range' s n)) :
    List.Sorted (· ≤ ·) (l.map f) :=
  List.Pairwise.map f (fun a b hab => hf a b (Nat.le_of_lt hab))
    (List.Pairwise.sublist hsub (List.pairwise_lt_range' s n))

theorem chunkLoopGo_vals (resp : Nat → ApiResult WhisperApiResponse) (n : Nat) :
    ∀ (r i : Nat), ∃ r2, r2 ≤ r ∧
      progressValues (chunkLoopGo resp n r i).writes =
        (List.range' i r2).map (fun j => 35 + jsRound (20 * (j + 1)) n) := by
  intro r
  induction r with
  | zero => intro i; exact ⟨0, le_rfl, rfl⟩
  | succ r ih =>
    intro i
    simp only [chunkLoopGo]
    cases callWhisperAPI (resp i) with
    | err m => exact ⟨0, Nat.zero_le _, rfl⟩
    | ok segs =>
      obtain ⟨r2, hr2, hvals⟩ := ih (i + 1)
      refine ⟨r2 + 1, by omega, ?_⟩
      have hcons : List.range' i (r2 + 1) = i :: List.range' (i + 1) r2 := rfl
      rw [hcons, List.map_cons, ← hvals]
      rfl

theorem batchLoopGo_vals (outcomes : Nat → LLMOutcome) (m : Nat) :
    ∀ (rest : List (List LLMItem)) (k : Nat), ∃ l : List Nat,
      l.Sublist (List.range' k rest.length) ∧
      progressValues (batchLoopGo outcomes m k rest).writes =
        l.map (fun j => 70 + jsRound (20 * (j + 1)) m) := by
  intro rest
  induction rest with
  | nil => intro k; exact ⟨[], List.Sublist.refl _, rfl⟩
  | cons b rest ih =>
    intro k
    have hcons : List.range' k (b :: rest).length =
        k :: List.range' (k + 1) rest.length := rfl
    simp only [batchLoopGo]
    cases outcomes k with
    | thrown msg => exact ⟨[], by rw [hcons]; exact List.nil_sublist _, rfl⟩
    | httpFail e =>
      obtain ⟨l, hsub, hvals⟩ := ih (k + 1)
      exact ⟨l, by rw [hcons]; exact hsub.cons k, hvals⟩
    | ok c =>
      obtain ⟨l, hsub, hvals⟩ := ih (k + 1)
      refine ⟨k :: l, by rw [hcons]; exact hsub.cons₂ k, ?_⟩
      rw [List.map_cons, ← hvals]
      rfl

theorem sorted_le_append (l1 l2 : List Nat) (h1 : List.Sorted (· ≤ ·) l1)
    (h2 : List.Sorted (· ≤ ·) l2) (h : ∀ a ∈ l1, ∀ b ∈ l2, a ≤ b) :
    List.Sorted (· ≤ ·) (l1 ++ l2) :=
  List.pairwise_append.mpr ⟨h1, h2, h⟩

theorem formatRun_vals (utts : List Utt) (outcomes : Nat → LLMOutcome) :
    List.Sorted (· ≤ ·) (progressValues (formatRun utts outcomes).writes) ∧
    ∀ x ∈ progressValues (formatRun utts outcomes).writes, 70 ≤ x := by
  by_cases hemp : utts.isEmpty
  · constructor <;> simp [formatRun, hemp, progressValues]
  · obtain ⟨l, hsub, hvals⟩ := batchLoopGo_vals outcomes
      (sliceBatches (utts.map utteranceForLLM)).length
      (sliceBatches (utts.map utteranceForLLM)) 0
    have hmono : ∀ a b : Nat, a ≤ b →
        70 + jsRound (20 * (a + 1)) (sliceBatches (utts.map utteranceForLLM)).length ≤
        70 + jsRound (20 * (b + 1)) (sliceBatches (utts.map utteranceForLLM)).length := by
      intro a b hab
      have := jsRound_mono (d := (sliceBatches (utts.map utteranceForLLM)).length)
        (a := 20 * (a + 1)) (b := 20 * (b + 1)) (by omega)
      omega
    have hsorted_l : List.Sorted (· ≤ ·)
        (progressValues (batchLoopGo outcomes
          (sliceBatches (utts.map utteranceForLLM)).length 0
          (sliceBatches (utts.map utteranceForLLM))).writes) := by
      rw [hvals]; exact sorted_map_sublist _ hmono hsub
    have hmem_l : ∀ x ∈ progressValues (batchLoopGo outcomes
        (sliceBatches (utts.map utteranceForLLM)).length 0
        (sliceBatches (utts.map utteranceForLLM))).writes, 70 ≤ x ∧ x ≤ 90 := by
      intro x hx
      rw [hvals] at hx
      obtain ⟨j, hj, rfl⟩ := List.mem_map.mp hx
      have hjm : j < (sliceBatches (utts.map utteranceForLLM)).length := by
        have := List.mem_range'_1.mp (hsub.subset hj)
        omega
      have hb := jsRound_le_20 (j := j + 1)
        (n := (sliceBatches (utts.map utteranceForLLM)).length) (by omega)
      omega
    cases hfl : (batchLoopGo outcomes
        (sliceBatches (utts.map utteranceForLLM)).length 0
        (sliceBatches (utts.map utteranceForLLM))).failed with
    | some msg =>
      simp only [formatRun, hemp, Bool.false_eq_true, if_false, hfl]
      simp only [progressValues, List.filterMap_cons, List.filterMap_append,
        List.filterMap_nil, List.append_nil]
      simp only [progressValues] at hsorted_l hmem_l
      constructor
      · rw [List.sorted_cons]
        exact ⟨fun b hb => (hmem_l b hb).1.trans' (by omega), hsorted_l⟩
      · intro x hx
        rcases List.mem_cons.mp hx with rfl | hx
        · omega
        · exact (hmem_l x hx).1
    | none =>
      simp only [formatRun, hemp, Bool.false_eq_true, if_false, hfl]
      simp only [progressValues, List.filterMap_cons, List.filterMap_append,
        List.filterMap_nil]
      simp only [progressValues] at hsorted_l hmem_l
      rw [List.cons_append]
      constructor
      · rw [List.sorted_cons]
        constructor
        · intro b hb
          rcases List.mem_append.mp hb with hb | hb
          · exact (hmem_l b hb).1.trans' (by omega)
          · rcases List.mem_singleton.mp hb with rfl; omega
        · refine sorted_le_append _ _ hsorted_l (List.sorted_singleton 100) ?_
          intro a ha b hb
          rcases List.mem_singleton.mp hb with rfl
          exact (hmem_l a ha).2.trans (by omega)
      · intro x hx
        rcases List.mem_cons.mp hx with rfl | hx
        · omega
        · rcases List.mem_append.mp hx with hx | hx
          · exact (hmem_l x hx).1
          · rcases List.mem_singleton.mp hx with rfl; omega

theorem progressValues_nil : progressValues [] = [] := rfl

theorem progressValues_cons_progress (p : Nat) (st : Option String) (ws : List DbWrite) :
    progressValues (DbWrite.progress p st :: ws) = p :: progressValues ws := rfl

theorem progressValues_cons_statusOnly (s : String) (ws : List DbWrite) :
    progressValues (DbWrite.statusOnly s :: ws) = progressValues ws := rfl

theorem progressValues_append (a b : List DbWrite) :
    progressValues (a ++ b) = progressValues a ++ progressValues b :=
  List.filterMap_append a b _

theorem chunkLoopRun_vals (resp : Nat → ApiResult WhisperApiResponse) (n : Nat) :
    List.Sorted (· ≤ ·) (progressValues (chunkLoopRun resp n).writes) ∧
    ∀ x ∈ progressValues (chunkLoopRun resp n).writes, 35 ≤ x ∧ x ≤ 55 := by
  obtain ⟨r2, hr2, hvals⟩ := chunkLoopGo_vals resp n n 0
  rw [chunkLoopRun, hvals]
  constructor
  · refine sorted_map_range' _ ?_ 0 r2
    intro a b hab
    have := jsRound_mono (d := n) (a := 20 * (a + 1)) (b := 20 * (b + 1)) (by omega)
    omega
  · intro x hx
    obtain ⟨j, hj, rfl⟩ := List.mem_map.mp hx
    have hjn : j < n := by
      have := List.mem_range'_1.mp hj
      omega
    have hb := jsRound_le_20 (j := j + 1) (n := n) (by omega)
    omega

theorem whisperRun_vals (tid : String) (env : WhisperEnv) :
    List.Sorted (· ≤ ·) (progressValues (whisperRun tid env).writes) ∧
    ∀ x ∈ progressValues (whisperRun tid env).writes, x ≤ 65 := by
  unfold whisperRun
  by_cases h1 : env.found
  case neg => constructor <;> (simp [h1, progressValues]; try decide)
  by_cases h2 : env.hasMediaUrl
  case neg => constructor <;> (simp [h1, h2, progressValues]; try decide)
  by_cases h3 : env.downloadOk
  case neg => constructor <;> (simp [h1, h2, h3, progressValues]; try decide)
  by_cases h4 : (isVideoExt env.ext || decide (env.mediaSize > MAX_WHISPER_SIZE)) = true
  · cases h5 : env.convert with
    | err m => constructor <;> (simp [h1, h2, h3, h4, h5, progressValues]; try decide)
    | ok audioSize =>
      by_cases h6 : audioSize > MAX_WHISPER_SIZE
      · cases h7 : env.probe with
        | err m =>
          constructor <;> (simp [h1, h2, h3, h4, h5, h6, h7, progressValues]; try decide)
        | ok out =>
          obtain ⟨hcs, hcb⟩ :=
            chunkLoopRun_vals env.chunkResp (numChunksOf (jsParseFloat (jsTrim out)))
          cases h8 : (chunkLoopRun env.chunkResp (numChunksOf (jsParseFloat (jsTrim out)))).failed with
          | some m =>
            constructor
            · simp only [h1, h2, h3, h4, h5, h6, h7, h8, progressValues, not_true,
                if_true, if_false, ite_true, ite_false, List.filterMap_append,
                List.filterMap_cons, List.filterMap_nil, List.cons_append,
                List.nil_append, List.append_nil, decide_eq_true_eq, if_pos h6]
              simp only [progressValues] at hcs
              refine sorted_le_append [15, 20, 25, 30] _ (by decide) hcs ?_
              intro a ha b hb
              have hb' := (hcb b hb).1
              fin_cases ha <;> omega
            · intro x hx
              simp only [h1, h2, h3, h4, h5, h6, h7, h8, progressValues, not_true,
                if_true, if_false, ite_true, ite_false, List.filterMap_append,
                List.filterMap_cons, List.filterMap_nil, List.cons_append,
                List.nil_append, List.append_nil, decide_eq_true_eq, if_pos h6,
                List.mem_cons, List.mem_append] at hx
              simp only [progressValues] at hcb
              rcases hx with rfl | rfl | rfl | rfl | hx
              · omega
              · omega
              · omega
              · omega
              · have := (hcb x hx).2; omega
          | none =>
            have hinner : List.Sorted (· ≤ ·)
                (progressValues (chunkLoopRun env.chunkResp
                  (numChunksOf (jsParseFloat (jsTrim out)))).writes ++ [55, 65]) := by
              refine sorted_le_append _ _ hcs (by decide) ?_
              intro a ha b hb
              have ha2 := (hcb a ha).2
              fin_cases hb <;> omega
            have hinner2 : List.Sorted (· ≤ ·)
                (progressValues (chunkLoopRun env.chunkResp
                  (numChunksOf (jsParseFloat (jsTrim out)))).writes ++ [55]) := by
              refine sorted_le_append _ _ hcs (by decide) ?_
              intro a ha b hb
              have ha2 := (hcb a ha).2
              fin_cases hb <;> omega
            have hcross : ∀ a ∈ ([15, 20, 25, 30] : List Nat),
                ∀ b ∈ progressValues (chunkLoopRun env.chunkResp
                  (numChunksOf (jsParseFloat (jsTrim out)))).writes ++ [55, 65], a ≤ b := by
              intro a ha b hb
              rcases List.mem_append.mp hb with hb | hb
              · have := (hcb b hb).1
                fin_cases ha <;> omega
              · fin_cases hb <;> fin_cases ha <;> omega
            have hcross2 : ∀ a ∈ ([15, 20, 25, 30] : List Nat),
                ∀ b ∈ progressValues (chunkLoopRun env.chunkResp
                  (numChunksOf (jsParseFloat (jsTrim out)))).writes ++ [55], a ≤ b := by
              intro a ha b hb
              rcases List.mem_append.mp hb with hb | hb
              · have := (hcb b hb).1
                fin_cases ha <;> omega
              · fin_cases hb <;> fin_cases ha <;> omega
            cases h9 : (chunkLoopRun env.chunkResp
                (numChunksOf (jsParseFloat (jsTrim out)))).segs.isEmpty with
            | true =>
              constructor
              · simp only [h1, h2, h3, h4, h5, h6, h7, h8, h9,
                  not_true, if_true, if_false, ite_true, ite_false,
                  Bool.false_eq_true, Bool.true_eq_false,
                  progressValues_append, progressValues_cons_progress,
                  progressValues_cons_statusOnly, progressValues_nil, List.cons_append,
                  List.nil_append, List.append_nil, List.append_assoc,
                  decide_eq_true_eq, if_pos h6]
                exact sorted_le_append [15, 20, 25, 30] _ (by decide) hinner hcross
              · simp only [h1, h2, h3, h4, h5, h6, h7, h8, h9,
                  not_true, if_true, if_false, ite_true, ite_false,
                  Bool.false_eq_true, Bool.true_eq_false,
                  progressValues_append, progressValues_cons_progress,
                  progressValues_cons_statusOnly, progressValues_nil, List.cons_append,
                  List.nil_append, List.append_nil, List.append_assoc,
                  decide_eq_true_eq, if_pos h6]
                intro x hx
                rcases List.mem_cons.mp hx with rfl | hx
                · omega
                rcases List.mem_cons.mp hx with rfl | hx
                · omega
                rcases List.mem_cons.mp hx with rfl | hx
                · omega
                rcases List.mem_cons.mp hx with rfl | hx
                · omega
                rcases List.mem_append.mp hx with hx | hx
                · have := (hcb x hx).2
                  omega
                · fin_cases hx <;> omega
            | false =>
              cases h10 : env.insertOk with
              | true =>
                constructor
                · simp only [h1, h2, h3, h4, h5, h6, h7, h8, h9, h10,
                    not_true, if_true, if_false, ite_true, ite_false,
                    Bool.false_eq_true, Bool.true_eq_false,
                    progressValues_append, progressValues_cons_progress,
                    progressValues_cons_statusOnly, progressValues_nil, List.cons_append,
                    List.nil_append, List.append_nil, List.append_assoc,
                    decide_eq_true_eq, if_pos h6]
                  exact sorted_le_append [15, 20, 25, 30] _ (by decide) hinner hcross
                · simp only [h1, h2, h3, h4, h5, h6, h7, h8, h9, h10,
                    not_true, if_true, if_false, ite_true, ite_false,
                    Bool.false_eq_true, Bool.true_eq_false,
                    progressValues_append, progressValues_cons_progress,
                    progressValues_cons_statusOnly, progressValues_nil, List.cons_append,
                    List.nil_append, List.append_nil, List.append_assoc,
                    decide_eq_true_eq, if_pos h6]
                  intro x hx
                  rcases List.mem_cons.mp hx with rfl | hx
                  · omega
                  rcases List.mem_cons.mp hx with rfl | hx
                  · omega
                  rcases List.mem_cons.mp hx with rfl | hx
                  · omega
                  rcases List.mem_cons.mp hx with rfl | hx
                  · omega
                  rcases List.mem_append.mp hx with hx | hx
                  · have := (hcb x hx).2
                    omega
                  · fin_cases hx <;> omega
              | false =>
                constructor
                · simp only [h1, h2, h3, h4, h5, h6, h7, h8, h9, h10,
                    not_true, if_true, if_false, ite_true, ite_false,
                    Bool.false_eq_true, Bool.true_eq_false,
                    progressValues_append, progressValues_cons_progress,
                    progressValues_cons_statusOnly, progressValues_nil, List.cons_append,
                    List.nil_append, List.append_nil, List.append_assoc,
                    decide_eq_true_eq, if_pos h6]
                  exact sorted_le_append [15, 20, 25, 30] _ (by decide) hinner2 hcross2
                · simp only [h1, h2, h3, h4, h5, h6, h7, h8, h9, h10,
                    not_true, if_true, if_false, ite_true, ite_false,
                    Bool.false_eq_true, Bool.true_eq_false,
                    progressValues_append, progressValues_cons_progress,
                    progressValues_cons_statusOnly, progressValues_nil, List.cons_append,
                    List.nil_append, List.append_nil, List.append_assoc,
                    decide_eq_true_eq, if_pos h6]
                  intro x hx
                  rcases List.mem_cons.mp hx with rfl | hx
                  · omega
                  rcases List.mem_cons.mp hx with rfl | hx
                  · omega
                  rcases List.mem_cons.mp hx with rfl | hx
                  · omega
                  rcases List.mem_cons.mp hx with rfl | hx
                  · omega
                  rcases List.mem_append.mp hx with hx | hx
                  · have := (hcb x hx).2
                    omega
                  · fin_cases hx <;> omega
      · cases h9 : callWhisperAPI env.wholeResp with
        | err m =>
          constructor <;> (simp [h1, h2, h3, h4, h5, h6, h9, progressValues]; try decide)
        | ok segs =>
          by_cases h10 : segs.isEmpty
          case pos =>
            constructor <;>
              (simp [h1, h2, h3, h4, h5, h6, h9, h10, progressValues]; try decide)
          case neg =>
            by_cases h11 : env.insertOk
            case pos =>
              constructor <;>
                (simp [h1, h2, h3, h4, h5, h6, h9, h10, h11, progressValues]; try decide)
            case neg =>
              constructor <;>
                (simp [h1, h2, h3, h4, h5, h6, h9, h10, h11, progressValues]; try decide)
  · have hv : isVideoExt env.ext = false := by
      cases hvv : isVideoExt env.ext
      · rfl
      · exact absurd (by simp [hvv]) h4
    have h6 : ¬env.mediaSize > MAX_WHISPER_SIZE := fun hgt => h4 (by simp [hgt])
    cases h9 : callWhisperAPI env.wholeResp with
    | err m =>
      constructor <;> (simp [h1, h2, h3, hv, h6, h9, progressValues]; try decide)
    | ok segs =>
      cases h10 : segs.isEmpty with
      | true =>
        constructor <;> (simp [h1, h2, h3, hv, h6, h9, h10, progressValues]; try decide)
      | false =>
        cases h11 : env.insertOk with
        | true =>
          constructor <;>
            (simp [h1, h2, h3, hv, h6, h9, h10, h11, progressValues]; try decide)
        | false =>
          constructor <;>
            (simp [h1, h2, h3, hv, h6, h9, h10, h11, progressValues]; try decide)

/-- C6: over a whole pipeline run — the Whisper transcription stage
followed by the batch-correction stage, chunk-loop and batch-loop
progress writes included, under every combination of external outcomes
(failures abort a stage after a prefix of its writes) — the sequence of
progress values written to the job is monotonically non-decreasing from
the first write to the terminal state.  Error handlers write only the
status, never a progress value. -/
theorem c6_progress_monotone (tid : String) (env : WhisperEnv)
    (utts : List Utt) (outcomes : Nat → LLMOutcome) :
    List.Sorted (· ≤ ·)
      (progressValues ((whisperRun tid env).writes ++ (formatRun utts outcomes).writes)) := by
  rw [progressValues_append]
  obtain ⟨hw1, hw2⟩ := whisperRun_vals tid env
  obtain ⟨hf1, hf2⟩ := formatRun_vals utts outcomes
  refine sorted_le_append _ _ hw1 hf1 ?_
  intro a ha b hb
  have h1 := hw2 a ha
  have h2 := hf2 b hb
  omega
